import Mathlib

/-!
Verification of the pukeko SSH menu server: a shallow embedding of the
per-connection session engine (src/ssh.rs, src/tui.rs, src/config.rs) in
Lean 4, together with theorems about the authentication handlers, the
connection state machine, the menu selection algorithm, the incremental
input decoder and the output bridge.

Machine integers (Rust `usize`) are modelled as `Nat`; the one place where
a `usize` subtraction could underflow (`items.len() - 1` in
`select_item_down`) is modelled as a checked operation returning `Option`,
with `none` standing for the Rust panic. Byte slices are `List Nat`.
-/

namespace Pukeko

/-! ### Data model: keys, configuration, connections (src/config.rs, src/ssh.rs) -/

/-- A public key, modelled structurally by its serialized bytes; structural
equality of `ssh_key::PublicKey` values is equality of these bytes. -/
abbrev PublicKey := List Nat

/-- `PukekoConfig` (src/config.rs): the single authorized user key.  The
server private key plays no role in the handlers modelled here. -/
structure PukekoConfig where
  user_key : PublicKey
deriving DecidableEq, Repr

/-- `russh::server::Auth` decisions as the handlers use them:
`Auth::Accept` and `Auth::reject()`. -/
inductive Auth where
  | Accept
  | Reject
deriving DecidableEq, Repr

/-! ### Input action decoder (termwiz escape parser boundary) -/

/-- A decoded action token: the cases `handle_data` (src/tui.rs:174) matches
on — a printed character, a CSI cursor-up / cursor-down sequence with its
numeric parameter, and everything else collapsed to `Other`. -/
inductive Action where
  | Print (c : Char)
  | CursorUp (n : Nat)
  | CursorDown (n : Nat)
  | Other
deriving DecidableEq, Repr

/-- Modelled from the spec: the byte-level tokenization of terminal escape
sequences is owned by the external `termwiz::escape::parser::Parser` crate,
not by this repository.  Per §4.3 of the spec it is a resumable parser
object that persists partial-sequence state between separate delivery
calls.  The state distinguishes: ground, after an ESC byte, and inside a
CSI parameter (with the optional numeric parameter accumulated so far). -/
inductive ParserState where
  | Ground
  | Escape
  | CsiParam (n : Option Nat)
deriving DecidableEq, Repr

/-- Modelled from the spec: one byte-at-a-time step of the external escape
parser.  Printable bytes in ground state decode to `Print`; `ESC [ … A` and
`ESC [ … B` decode to cursor up / down with their numeric parameter
(defaulting to 1); all other complete sequences decode to `Other`; an
incomplete prefix produces no action and is retained in the state. -/
def parserStep : ParserState → Nat → ParserState × Option Action
  | .Ground, b =>
    if b = 0x1B then (.Escape, none)
    else if 0x20 ≤ b ∧ b ≤ 0x7E then (.Ground, some (.Print (Char.ofNat b)))
    else (.Ground, some .Other)
  | .Escape, b =>
    if b = 0x5B then (.CsiParam none, none)
    else (.Ground, some .Other)
  | .CsiParam n, b =>
    if 0x30 ≤ b ∧ b ≤ 0x39 then (.CsiParam (some ((n.getD 0) * 10 + (b - 0x30))), none)
    else if b = 0x41 then (.Ground, some (.CursorUp (n.getD 1)))
    else if b = 0x42 then (.Ground, some (.CursorDown (n.getD 1)))
    else (.Ground, some .Other)

/-! ### Menu model (src/tui.rs) -/

/-- `MenuState` (src/tui.rs:44): the menu lifecycle flag. -/
inductive MenuState where
  | Open
  | Closing
deriving DecidableEq, Repr

/-- `ratatui::widgets::ListState`, reduced to the field the menu reads and
writes: the optionally selected index.  `ListState::default()` has
`selected = none`. -/
structure ListState where
  selected : Option Nat
deriving DecidableEq, Repr

/-- `UI` (src/tui.rs:49). -/
structure UI where
  list_state : ListState
deriving DecidableEq, Repr

/-- `PukekoMenu` (src/tui.rs:53): resumable parser state, item labels,
UI selection state and the lifecycle flag. -/
structure PukekoMenu where
  parser : ParserState
  items : List String
  ui : UI
  state : MenuState
deriving DecidableEq, Repr

/-- `TerminalHandle` (src/tui.rs:204), keeping the accumulation buffer
(`sink`).  The sending half of the unbounded channel is modelled at the
flush call sites by the queue contents and the consumer-alive flag. -/
structure TerminalHandle where
  sink : List Nat
deriving DecidableEq, Repr

/-- `SshTerminal` (src/tui.rs:14): the ratatui terminal over the handle,
reduced to the handle itself. -/
structure SshTerminal where
  handle : TerminalHandle
deriving DecidableEq, Repr

/-- `PukekoMenu::from_session` (src/tui.rs:62): builds the terminal (with an
empty accumulation buffer, `TerminalHandle::start`) paired with the menu:
items `["Hello", "World", "memes"]`, fresh parser, index 0 selected, state
`Open`. -/
def PukekoMenu.from_session : SshTerminal × PukekoMenu :=
  (⟨⟨[]⟩⟩,
   { parser := .Ground
     items := ["Hello", "World", "memes"]
     ui := { list_state := { selected := some 0 } }
     state := .Open })

/-- The widget tree a call to `SshTerminal::render` (src/tui.rs:28) draws:
either the highlighted list over the menu's items and selection
(`render_menu`), or a fully cleared empty frame (`Clear` over the whole
area). -/
inductive RenderedFrame where
  | menuFrame (items : List String) (selected : Option Nat)
  | clearedFrame
deriving DecidableEq, Repr

/-- `SshTerminal::render` (src/tui.rs:28): draw the menu only while the
lifecycle flag is `Open`; otherwise draw a cleared frame. -/
def SshTerminal.render (menu : PukekoMenu) : RenderedFrame :=
  match menu.state with
  | .Open => .menuFrame menu.items menu.ui.list_state.selected
  | .Closing => .clearedFrame

/-- `PukekoMenu::select_item_down` (src/tui.rs:146).  The Rust code computes
`self.items.len() - 1` on `usize`; when a selection exists and the item list
is empty that subtraction underflows (a panic in debug builds), modelled
here as `none`. -/
def PukekoMenu.select_item_down (m : PukekoMenu) : Option PukekoMenu :=
  match m.ui.list_state.selected with
  | some current =>
    if m.items.length = 0 then
      none
    else
      let i := if m.items.length - 1 ≤ current then 0 else current + 1
      some { m with ui := { list_state := { selected := some i } } }
  | none => some { m with ui := { list_state := { selected := some 0 } } }

/-- `PukekoMenu::select_item_up` (src/tui.rs:160): from index 0 jump to
`items.len()`; otherwise decrement; with no selection, select 0. -/
def PukekoMenu.select_item_up (m : PukekoMenu) : PukekoMenu :=
  match m.ui.list_state.selected with
  | some current =>
    let i := if current = 0 then m.items.length else current - 1
    { m with ui := { list_state := { selected := some i } } }
  | none => { m with ui := { list_state := { selected := some 0 } } }

/-- The action dispatch inside `PukekoMenu::handle_data` (src/tui.rs:184):
`Print 'q'` sets the flag to `Closing`; cursor-up or `Print 'k'` moves the
selection up; cursor-down or `Print 'j'` moves it down; everything else is
ignored. -/
def PukekoMenu.applyAction (m : PukekoMenu) : Action → Option PukekoMenu
  | .Print c =>
    if c = 'q' then some { m with state := .Closing }
    else if c = 'k' then some m.select_item_up
    else if c = 'j' then m.select_item_down
    else some m
  | .CursorUp _ => some m.select_item_up
  | .CursorDown _ => m.select_item_down
  | .Other => some m

/-- One byte of `PukekoMenu::handle_data` (src/tui.rs:174): advance the
resumable parser and, when it yields a complete action, dispatch it. -/
def PukekoMenu.handleByte (m : PukekoMenu) (b : Nat) : Option PukekoMenu :=
  match parserStep m.parser b with
  | (p, some a) => PukekoMenu.applyAction { m with parser := p } a
  | (p, none) => some { m with parser := p }

/-- `PukekoMenu::handle_data` (src/tui.rs:174) on one delivery: repeatedly
extract the next complete action from the unconsumed remainder and dispatch
it, threading the parser state. -/
def PukekoMenu.handle_data (m : PukekoMenu) (data : List Nat) : Option PukekoMenu :=
  data.foldlM PukekoMenu.handleByte m

/-- `handle_data` over a sequence of consecutive deliveries. -/
def PukekoMenu.handle_data_chunks (m : PukekoMenu) (parts : List (List Nat)) :
    Option PukekoMenu :=
  parts.foldlM PukekoMenu.handle_data m

/-- One byte of the decoded-action trace: advance the parser and append the
complete action it yielded, if any. -/
def decodeStep (pa : ParserState × List Action) (b : Nat) : ParserState × List Action :=
  match parserStep pa.1 b with
  | (p, some a) => (p, pa.2 ++ [a])
  | (p, none) => (p, pa.2)

/-- The decoded action trace of one delivery: the parser state after the
delivery and the complete actions it yielded, in order. -/
def decodeDelivery (p : ParserState) (data : List Nat) : ParserState × List Action :=
  data.foldl decodeStep (p, [])

/-- One delivery of the chunked decoded-action trace. -/
def decodeChunkStep (pa : ParserState × List Action) (d : List Nat) :
    ParserState × List Action :=
  ((decodeDelivery pa.1 d).1, pa.2 ++ (decodeDelivery pa.1 d).2)

/-- The decoded action trace of a sequence of consecutive deliveries,
threading the parser state from each delivery into the next. -/
def decodeDeliveries (p : ParserState) (parts : List (List Nat)) :
    ParserState × List Action :=
  parts.foldl decodeChunkStep (p, [])

/-! ### Session state machine (src/ssh.rs) -/

/-- `ConnectionState` (src/ssh.rs:67). -/
inductive ConnectionState where
  | Connected
  | AtMenu (terminal : SshTerminal) (menu : PukekoMenu)
deriving DecidableEq, Repr

/-- `ClientConnection` (src/ssh.rs:76). -/
structure ClientConnection where
  config : PukekoConfig
  connection_state : ConnectionState
  id : Nat
deriving DecidableEq, Repr

/-- `ClientConnection::new` (src/ssh.rs:83). -/
def ClientConnection.new (config : PukekoConfig) (id : Nat) : ClientConnection :=
  { config := config, connection_state := .Connected, id := id }

/-- `ClientConnection::auth_publickey_offered` (src/ssh.rs:95): accept
exactly when the offered key equals the configured user key; the connection
itself is returned unchanged (the handler only logs). -/
def ClientConnection.auth_publickey_offered (c : ClientConnection)
    (_user : String) (public_key : PublicKey) : Auth × ClientConnection :=
  if public_key = c.config.user_key then (.Accept, c) else (.Reject, c)

/-- `ClientConnection::auth_publickey` (src/ssh.rs:119): the final
authentication handler.  The Rust body only logs and returns
`Ok(Auth::Accept)` — there is no comparison against the configured key. -/
def ClientConnection.auth_publickey (c : ClientConnection)
    (_user : String) (_public_key : PublicKey) : Auth × ClientConnection :=
  (.Accept, c)

/-- `ClientConnection::channel_open_session` (src/ssh.rs:231): from
`Connected`, build the (terminal, menu) pair with
`PukekoMenu::from_session`, move to `AtMenu` and answer `true`; otherwise
answer `false` and change nothing. -/
def ClientConnection.channel_open_session (c : ClientConnection) :
    Bool × ClientConnection :=
  match c.connection_state with
  | .Connected =>
    match PukekoMenu.from_session with
    | (terminal, menu) =>
      (true, { c with connection_state := .AtMenu terminal menu })
  | .AtMenu _ _ => (false, c)

/-! ### Output bridge (src/tui.rs: TerminalHandle and its Write impl) -/

/-- The error `TerminalHandle::flush` builds when the channel send fails:
`std::io::ErrorKind::BrokenPipe`. -/
inductive FlushError where
  | brokenPipe
deriving DecidableEq, Repr

/-- `<TerminalHandle as Write>::write` (src/tui.rs:229): append to the
accumulation buffer and report the full length written. -/
def TerminalHandle.write (h : TerminalHandle) (buf : List Nat) :
    Nat × TerminalHandle :=
  (buf.length, { sink := h.sink ++ buf })

/-- `<TerminalHandle as Write>::flush` (src/tui.rs:234).  The unbounded
channel is modelled by the queued units `queue` and by `alive`, whether the
background consumer task spawned by `TerminalHandle::start` is still
running: `UnboundedSender::send` succeeds and enqueues exactly when the
receiving side still exists, and fails otherwise, in which case the Rust
code returns the `BrokenPipe` error before reaching `self.sink.clear()`. -/
def TerminalHandle.flush (alive : Bool) (h : TerminalHandle)
    (queue : List (List Nat)) :
    Except FlushError Unit × TerminalHandle × List (List Nat) :=
  if alive then
    (.ok (), { sink := [] }, queue ++ [h.sink])
  else
    (.error .brokenPipe, h, queue)

/-! ### Theorems -/

/-- C1: the claim says the confirm-public-key (final authentication) handler
performs the same structural-equality check as the offer step and returns
an accept decision only when the submitted key equals the configured key.
The code does not: `ClientConnection::auth_publickey` returns
`Auth::Accept` unconditionally.  Evaluated here at a failing input: a
submitted key different from the configured key is still accepted by the
confirm handler, while the offer handler rejects that very key. -/
theorem auth_publickey_accepts_mismatched_key :
    ((ClientConnection.new { user_key := [1, 2, 3] } 1).auth_publickey
        "operator" [1, 2, 4]).1 = Auth.Accept ∧
      ([1, 2, 4] : PublicKey) ≠ ([1, 2, 3] : PublicKey) ∧
      ((ClientConnection.new { user_key := [1, 2, 3] } 1).auth_publickey_offered
          "operator" [1, 2, 4]).1 = Auth.Reject :=
  ⟨rfl, by decide, rfl⟩

/-- C2: the offer-public-key handler accepts exactly when the offered key is
structurally equal to the configured authorized key (any other key is
rejected), and it leaves the connection unchanged. -/
theorem auth_publickey_offered_accept_iff (c : ClientConnection)
    (user : String) (key : PublicKey) :
    ((c.auth_publickey_offered user key).1 = Auth.Accept ↔
        key = c.config.user_key) ∧
      (c.auth_publickey_offered user key).2 = c := by
  unfold ClientConnection.auth_publickey_offered
  split <;> simp_all

/-- C4: with a current index `i`, move-up sets the index to `items.length`
(one past the last valid index) when `i = 0`, and to `i - 1` otherwise. -/
theorem select_item_up_spec (m : PukekoMenu) (i : Nat)
    (h : m.ui.list_state.selected = some i) :
    m.select_item_up.ui.list_state.selected =
      some (if i = 0 then m.items.length else i - 1) := by
  unfold PukekoMenu.select_item_up
  rw [h]

/-- Witness for C4: the freshly created menu has index 0; move-up jumps to
`items.length = 3`. -/
theorem select_item_up_spec_witness :
    PukekoMenu.from_session.2.select_item_up.ui.list_state.selected =
      some (if 0 = 0 then PukekoMenu.from_session.2.items.length else 0 - 1) :=
  select_item_up_spec PukekoMenu.from_session.2 0 rfl

/-- C5 counterexample: the claim says move-down wraps to 0 exactly at the
last valid index and increments otherwise.  But index 3 (= item count, one
past the last valid index 2) is reachable — pressing `k` on the fresh menu
puts the selection there — and move-down from it yields 0, not 3 + 1. -/
theorem select_item_down_wraps_above_last :
    ((PukekoMenu.from_session.2.handle_data [0x6B]).map
        (fun m => m.ui.list_state.selected) = some (some 3)) ∧
      (((PukekoMenu.from_session.2.handle_data [0x6B]).bind
          PukekoMenu.select_item_down).map
        (fun m => m.ui.list_state.selected) = some (some 0)) ∧
      (3 : Nat) ≠ PukekoMenu.from_session.2.items.length - 1 ∧
      (some 0 : Option Nat) ≠ some (3 + 1) :=
  ⟨rfl, rfl, by decide, by decide⟩

/-- C5 amended: with a current index `i` and a non-empty item list,
move-down wraps to 0 whenever `i` is at least the last valid index
(`items.length - 1 ≤ i`), and increments to `i + 1` otherwise. -/
theorem select_item_down_spec (m : PukekoMenu) (i : Nat)
    (h : m.ui.list_state.selected = some i) (hne : m.items ≠ []) :
    m.select_item_down =
      some { m with ui := { list_state :=
        { selected := some (if m.items.length - 1 ≤ i then 0 else i + 1) } } } := by
  have hlen : ¬m.items.length = 0 := by
    simpa [List.length_eq_zero] using hne
  unfold PukekoMenu.select_item_down
  rw [h]
  simp [hlen]

/-- Witness for C5 amended: the fresh menu (3 items, index 0) moves down to
index 1. -/
theorem select_item_down_spec_witness :
    PukekoMenu.from_session.2.select_item_down =
      some { PukekoMenu.from_session.2 with ui := { list_state :=
        { selected :=
            some (if PukekoMenu.from_session.2.items.length - 1 ≤ 0 then 0 else 0 + 1) } } } :=
  select_item_down_spec PukekoMenu.from_session.2 0 rfl (by decide)

/-- C3 counterexample: the claim says that once the lifecycle flag is
`Closing`, no selection-index change from subsequently decoded navigation
actions occurs.  But `handle_data` never consults the flag: after `q` the
menu is `Closing` with index 0, and a subsequent delivery of `j` still
moves the index to 1. -/
theorem closing_menu_still_mutates :
    (PukekoMenu.from_session.2.handle_data [0x71]).map
        (fun m => (m.state, m.ui.list_state.selected)) =
      some (MenuState.Closing, some 0) ∧
      ((PukekoMenu.from_session.2.handle_data [0x71]).bind
          (fun m => m.handle_data [0x6A])).map
        (fun m => (m.state, m.ui.list_state.selected)) =
      some (MenuState.Closing, some 1) :=
  ⟨rfl, rfl⟩

/-- C3 amended: while the lifecycle flag is `Closing`, every render paints
a fully cleared, empty frame instead of the highlighted list (the mutation
half of the claim fails: `handle_data` still applies navigation actions). -/
theorem render_closing_cleared (m : PukekoMenu) (h : m.state = .Closing) :
    SshTerminal.render m = .clearedFrame := by
  unfold SshTerminal.render
  rw [h]

/-- Witness for C3 amended: rendering the fresh menu after its flag is set
to `Closing` gives the cleared frame. -/
theorem render_closing_cleared_witness :
    SshTerminal.render { PukekoMenu.from_session.2 with state := .Closing } =
      .clearedFrame :=
  render_closing_cleared { PukekoMenu.from_session.2 with state := .Closing } rfl

/-- C7: flush succeeds exactly when the consumer task is still alive; a
successful flush appends the whole accumulation buffer as one unit to the
tail of the delivery queue and clears the buffer; a dead consumer makes
flush fail with the broken-pipe I/O error. -/
theorem flush_spec (alive : Bool) (h : TerminalHandle) (queue : List (List Nat)) :
    ((TerminalHandle.flush alive h queue).1 = .ok () ↔ alive = true) ∧
      (alive = true →
        (TerminalHandle.flush alive h queue).2.2 = queue ++ [h.sink] ∧
          (TerminalHandle.flush alive h queue).2.1.sink = []) ∧
      (alive = false →
        (TerminalHandle.flush alive h queue).1 = .error .brokenPipe) := by
  cases alive <;> simp [TerminalHandle.flush]

/-- Witness for C7: a flush of buffer `[1, 2]` with a live consumer
enqueues `[1, 2]` and clears the buffer; with a dead consumer it fails
with the broken-pipe error. -/
theorem flush_spec_witness :
    ((TerminalHandle.flush true ⟨[1, 2]⟩ []).2.2 = [] ++ [[1, 2]] ∧
        (TerminalHandle.flush true ⟨[1, 2]⟩ []).2.1.sink = []) ∧
      (TerminalHandle.flush false ⟨[1, 2]⟩ []).1 = .error .brokenPipe :=
  ⟨(flush_spec true ⟨[1, 2]⟩ []).2.1 rfl, (flush_spec false ⟨[1, 2]⟩ []).2.2 rfl⟩

/-- C9: when flush fails because the consumer task has terminated, the
accumulation buffer (and the queue) are left exactly as they were — the
Rust code returns the error before reaching `self.sink.clear()`. -/
theorem flush_failure_preserves_sink (h : TerminalHandle)
    (queue : List (List Nat)) :
    (TerminalHandle.flush false h queue).2.1 = h ∧
      (TerminalHandle.flush false h queue).2.2 = queue ∧
      (TerminalHandle.flush false h queue).1 = .error .brokenPipe :=
  ⟨rfl, rfl, rfl⟩

/-- The connection state a fresh channel-open-session builds: the
(terminal, menu) pair of `PukekoMenu::from_session`. -/
def atMenuInitial : ConnectionState :=
  ConnectionState.AtMenu PukekoMenu.from_session.1 PukekoMenu.from_session.2

/-- C6: a channel-open-session event in `Connected` answers `true` and
moves the connection to `AtMenu` with the freshly built (terminal, menu)
pair — items `["Hello", "World", "memes"]`, index 0 selected, flag `Open` —
while an event arriving when the connection is already `AtMenu` answers
`false` and leaves the connection unchanged. -/
theorem channel_open_session_spec (c : ClientConnection) :
    (c.connection_state = .Connected →
      c.channel_open_session.1 = true ∧
        ∃ t m, c.channel_open_session.2.connection_state = .AtMenu t m ∧
          m.items = ["Hello", "World", "memes"] ∧
          m.ui.list_state.selected = some 0 ∧
          m.state = .Open ∧
          c.channel_open_session.2.config = c.config ∧
          c.channel_open_session.2.id = c.id) ∧
    (∀ t m, c.connection_state = .AtMenu t m →
      c.channel_open_session.1 = false ∧ c.channel_open_session.2 = c) := by
  cases hcs : c.connection_state with
  | Connected =>
    have hco : c.channel_open_session =
        (true, { c with connection_state := atMenuInitial }) := by
      unfold ClientConnection.channel_open_session
      rw [hcs]
      rfl
    constructor
    · intro _
      rw [hco]
      exact ⟨rfl, PukekoMenu.from_session.1, PukekoMenu.from_session.2,
        rfl, rfl, rfl, rfl, rfl, rfl⟩
    · intro t m hm
      cases hm
  | AtMenu t m =>
    have hco : c.channel_open_session = (false, c) := by
      unfold ClientConnection.channel_open_session
      rw [hcs]
    constructor
    · intro hc
      cases hc
    · intro t' m' hm'
      rw [hco]
      exact ⟨rfl, rfl⟩

/-- Witness for C6: a fresh connection (state `Connected`) accepts the
event and reaches `AtMenu` with the menu as described; a connection already
`AtMenu` answers `false` and is unchanged. -/
theorem channel_open_session_spec_witness :
    ((ClientConnection.new { user_key := [7] } 1).channel_open_session.1 = true ∧
      ∃ t m,
        (ClientConnection.new { user_key := [7] } 1).channel_open_session.2.connection_state
            = .AtMenu t m ∧
          m.items = ["Hello", "World", "memes"] ∧
          m.ui.list_state.selected = some 0 ∧
          m.state = .Open ∧
          (ClientConnection.new { user_key := [7] } 1).channel_open_session.2.config
              = (ClientConnection.new { user_key := [7] } 1).config ∧
          (ClientConnection.new { user_key := [7] } 1).channel_open_session.2.id
              = (ClientConnection.new { user_key := [7] } 1).id) ∧
    (({ config := { user_key := [7] }, connection_state := atMenuInitial,
        id := 2 } : ClientConnection).channel_open_session.1 = false ∧
      ({ config := { user_key := [7] }, connection_state := atMenuInitial,
         id := 2 } : ClientConnection).channel_open_session.2 =
        { config := { user_key := [7] }, connection_state := atMenuInitial,
          id := 2 }) :=
  ⟨(channel_open_session_spec (ClientConnection.new { user_key := [7] } 1)).1 rfl,
    (channel_open_session_spec _).2 PukekoMenu.from_session.1
      PukekoMenu.from_session.2 rfl⟩

/-! ### Fragmentation invariance of the input decoder (C8) -/

/-- Folding the decode step from an arbitrary accumulator only prepends that
accumulator to the delivery's action trace. -/
theorem decodeDelivery_foldl_acc (data : List Nat) (p : ParserState)
    (acc : List Action) :
    data.foldl decodeStep (p, acc) =
      ((decodeDelivery p data).1, acc ++ (decodeDelivery p data).2) := by
  induction data generalizing p acc with
  | nil => simp [decodeDelivery]
  | cons b data ih =>
    obtain ⟨p1, oa, hs⟩ : ∃ p1 oa, parserStep p b = (p1, oa) :=
      ⟨(parserStep p b).1, (parserStep p b).2, rfl⟩
    have hstep : ∀ ac : List Action, decodeStep (p, ac) b = (p1, ac ++ oa.toList) := by
      intro ac
      cases oa <;> simp [decodeStep, hs]
    have hdd : decodeDelivery p (b :: data) =
        ((decodeDelivery p1 data).1, oa.toList ++ (decodeDelivery p1 data).2) := by
      show (b :: data).foldl decodeStep (p, []) = _
      rw [List.foldl_cons, hstep, List.nil_append, ih]
    rw [List.foldl_cons, hstep, ih, hdd, List.append_assoc]

/-- Decoding a concatenation of two deliveries threads the parser state of
the first into the second and concatenates the action traces. -/
theorem decodeDelivery_append (p : ParserState) (d1 d2 : List Nat) :
    decodeDelivery p (d1 ++ d2) =
      ((decodeDelivery (decodeDelivery p d1).1 d2).1,
        (decodeDelivery p d1).2 ++
          (decodeDelivery (decodeDelivery p d1).1 d2).2) := by
  obtain ⟨p1, a1, hd⟩ : ∃ p1 a1, decodeDelivery p d1 = (p1, a1) :=
    ⟨(decodeDelivery p d1).1, (decodeDelivery p d1).2, rfl⟩
  have key : decodeDelivery p (d1 ++ d2) = d2.foldl decodeStep (p1, a1) := by
    show (d1 ++ d2).foldl decodeStep (p, []) = _
    rw [List.foldl_append]
    show d2.foldl decodeStep (decodeDelivery p d1) = _
    rw [hd]
  rw [key, hd]
  simpa using decodeDelivery_foldl_acc d2 p1 a1

/-- Folding the chunk step from an arbitrary accumulator only prepends that
accumulator to the chunked action trace. -/
theorem decodeDeliveries_foldl_acc (parts : List (List Nat)) (p : ParserState)
    (acc : List Action) :
    parts.foldl decodeChunkStep (p, acc) =
      ((decodeDeliveries p parts).1, acc ++ (decodeDeliveries p parts).2) := by
  induction parts generalizing p acc with
  | nil => simp [decodeDeliveries]
  | cons d parts ih =>
    obtain ⟨p1, a1, hd⟩ : ∃ p1 a1, decodeDelivery p d = (p1, a1) :=
      ⟨(decodeDelivery p d).1, (decodeDelivery p d).2, rfl⟩
    have hstep : ∀ ac : List Action, decodeChunkStep (p, ac) d = (p1, ac ++ a1) := by
      intro ac
      simp [decodeChunkStep, hd]
    have hdds : decodeDeliveries p (d :: parts) =
        ((decodeDeliveries p1 parts).1, a1 ++ (decodeDeliveries p1 parts).2) := by
      show (d :: parts).foldl decodeChunkStep (p, []) = _
      rw [List.foldl_cons, hstep, List.nil_append, ih]
    rw [List.foldl_cons, hstep, ih, hdds, List.append_assoc]

/-- The chunked decode over consecutive deliveries equals the decode of the
undivided concatenation. -/
theorem decodeDeliveries_join (p : ParserState) (parts : List (List Nat)) :
    decodeDeliveries p parts = decodeDelivery p parts.flatten := by
  induction parts generalizing p with
  | nil => rfl
  | cons d parts ih =>
    have lhs : decodeDeliveries p (d :: parts) =
        parts.foldl decodeChunkStep ((decodeDelivery p d).1, (decodeDelivery p d).2) := by
      show parts.foldl decodeChunkStep (decodeChunkStep (p, []) d) = _
      simp [decodeChunkStep]
    rw [lhs, decodeDeliveries_foldl_acc, ih, List.flatten_cons, decodeDelivery_append]

/-- `handle_data` over a concatenation of two deliveries equals running the
two deliveries in sequence. -/
theorem handle_data_append (m : PukekoMenu) (d1 d2 : List Nat) :
    m.handle_data (d1 ++ d2) =
      (m.handle_data d1).bind (fun m1 => m1.handle_data d2) := by
  induction d1 generalizing m with
  | nil => rfl
  | cons b d1 ih =>
    cases hb : m.handleByte b with
    | none => simp [PukekoMenu.handle_data, hb]
    | some m1 => simp [PukekoMenu.handle_data, hb, ih m1]

/-- `handle_data` over consecutive deliveries equals `handle_data` of the
undivided concatenation. -/
theorem handle_data_chunks_join (m : PukekoMenu) (parts : List (List Nat)) :
    m.handle_data_chunks parts = m.handle_data parts.flatten := by
  induction parts generalizing m with
  | nil => rfl
  | cons d parts ih =>
    cases hd : m.handle_data d with
    | none =>
      simp [PukekoMenu.handle_data_chunks, hd, List.flatten_cons,
        handle_data_append]
    | some m1 =>
      simpa [PukekoMenu.handle_data_chunks, hd, List.flatten_cons,
        handle_data_append] using ih m1

/-- C8: for every way of splitting a byte sequence into two or more
consecutive deliveries, the decoded action sequence — and the menu state
obtained by applying it — equals what one undivided delivery produces. -/
theorem fragmentation_invariance (parts : List (List Nat)) (p : ParserState)
    (m : PukekoMenu) (_hsplit : 2 ≤ parts.length) :
    decodeDeliveries p parts = decodeDelivery p parts.flatten ∧
      m.handle_data_chunks parts = m.handle_data parts.flatten :=
  ⟨decodeDeliveries_join p parts, handle_data_chunks_join m parts⟩

/-- Witness for C8: the cursor-down escape sequence `ESC [ B` split across
two deliveries (`[ESC]` then `[ '[', 'B' ]`) decodes, and drives the fresh
menu, exactly as the undivided sequence. -/
theorem fragmentation_invariance_witness :
    2 ≤ ([[27], [91, 66]] : List (List Nat)).length ∧
      (decodeDeliveries .Ground [[27], [91, 66]] =
          decodeDelivery .Ground ([[27], [91, 66]] : List (List Nat)).flatten ∧
        PukekoMenu.from_session.2.handle_data_chunks [[27], [91, 66]] =
          PukekoMenu.from_session.2.handle_data
            ([[27], [91, 66]] : List (List Nat)).flatten) :=
  ⟨by decide,
    fragmentation_invariance [[27], [91, 66]] .Ground PukekoMenu.from_session.2
      (by decide)⟩

/-! ### Safety of the fresh menu under arbitrary input (C10) -/

/-- Move-up never changes the item list and always leaves a selection. -/
theorem select_item_up_preserves (m : PukekoMenu) :
    m.select_item_up.items = m.items ∧
      m.select_item_up.ui.list_state.selected.isSome := by
  unfold PukekoMenu.select_item_up
  cases m.ui.list_state.selected <;> simp

/-- With a non-empty item list, move-down cannot hit the underflowing
subtraction: it succeeds, keeps the item list and leaves a selection. -/
theorem select_item_down_preserves (m : PukekoMenu) (hne : m.items ≠ []) :
    ∃ m1, m.select_item_down = some m1 ∧ m1.items = m.items ∧
      m1.ui.list_state.selected.isSome := by
  have hlen : ¬m.items.length = 0 := by
    simpa [List.length_eq_zero] using hne
  unfold PukekoMenu.select_item_down
  cases m.ui.list_state.selected with
  | none =>
    exact ⟨{ m with ui := { list_state := { selected := some 0 } } }, rfl, rfl, rfl⟩
  | some i =>
    refine ⟨{ m with ui := { list_state :=
      { selected := some (if m.items.length - 1 ≤ i then 0 else i + 1) } } }, ?_, rfl, rfl⟩
    simp [hlen]

/-- Dispatching any decoded action on a menu with a non-empty item list and
a selection succeeds, keeps the item list and leaves a selection. -/
theorem applyAction_preserves (m : PukekoMenu) (a : Action)
    (hne : m.items ≠ []) (hsel : m.ui.list_state.selected.isSome) :
    ∃ m1, m.applyAction a = some m1 ∧ m1.items = m.items ∧
      m1.ui.list_state.selected.isSome := by
  cases a with
  | Print c =>
    by_cases hq : c = 'q'
    · refine ⟨{ m with state := .Closing }, ?_, rfl, hsel⟩
      simp [PukekoMenu.applyAction, hq]
    · by_cases hk : c = 'k'
      · obtain ⟨hit, hs⟩ := select_item_up_preserves m
        refine ⟨m.select_item_up, ?_, hit, hs⟩
        simp [PukekoMenu.applyAction, hq, hk]
      · by_cases hj : c = 'j'
        · obtain ⟨m1, hm1, hit, hs⟩ := select_item_down_preserves m hne
          refine ⟨m1, ?_, hit, hs⟩
          simp [PukekoMenu.applyAction, hq, hk, hj, hm1]
        · refine ⟨m, ?_, rfl, hsel⟩
          simp [PukekoMenu.applyAction, hq, hk, hj]
  | CursorUp n =>
    obtain ⟨hit, hs⟩ := select_item_up_preserves m
    exact ⟨m.select_item_up, rfl, hit, hs⟩
  | CursorDown n => exact select_item_down_preserves m hne
  | Other => exact ⟨m, rfl, rfl, hsel⟩

/-- One input byte on a menu with a non-empty item list and a selection
succeeds, keeps the item list and leaves a selection. -/
theorem handleByte_preserves (m : PukekoMenu) (b : Nat)
    (hne : m.items ≠ []) (hsel : m.ui.list_state.selected.isSome) :
    ∃ m1, m.handleByte b = some m1 ∧ m1.items = m.items ∧
      m1.ui.list_state.selected.isSome := by
  unfold PukekoMenu.handleByte
  obtain ⟨p1, oa, hs⟩ : ∃ p1 oa, parserStep m.parser b = (p1, oa) :=
    ⟨(parserStep m.parser b).1, (parserStep m.parser b).2, rfl⟩
  rw [hs]
  cases oa with
  | none => exact ⟨_, rfl, rfl, hsel⟩
  | some a => exact applyAction_preserves { m with parser := p1 } a hne hsel

/-- A whole delivery on a menu with a non-empty item list and a selection
succeeds, keeps the item list and leaves a selection. -/
theorem handle_data_preserves (data : List Nat) (m : PukekoMenu)
    (hne : m.items ≠ []) (hsel : m.ui.list_state.selected.isSome) :
    ∃ m1, m.handle_data data = some m1 ∧ m1.items = m.items ∧
      m1.ui.list_state.selected.isSome := by
  induction data generalizing m with
  | nil => exact ⟨m, rfl, rfl, hsel⟩
  | cons b data ih =>
    obtain ⟨m1, hb, hit1, hs1⟩ := handleByte_preserves m b hne hsel
    obtain ⟨m2, hd, hit2, hs2⟩ := ih m1 (hit1 ▸ hne) hs1
    refine ⟨m2, ?_, hit2.trans hit1, hs2⟩
    show (b :: data).foldlM PukekoMenu.handleByte m = some m2
    rw [List.foldlM_cons, hb]
    exact hd

/-- C10: starting from the menu `from_session` builds (3 items, index 0
selected), processing any sequence of input bytes never reaches the
underflowing subtraction (never panics) and always leaves the highlighted
index defined, with the item list untouched. -/
theorem from_session_no_panic_selected (data : List Nat) :
    ∃ m1, PukekoMenu.from_session.2.handle_data data = some m1 ∧
      m1.items = ["Hello", "World", "memes"] ∧
      ∃ i, m1.ui.list_state.selected = some i := by
  obtain ⟨m1, hd, hit, hs⟩ :=
    handle_data_preserves data PukekoMenu.from_session.2 (by decide) rfl
  exact ⟨m1, hd, hit, Option.isSome_iff_exists.mp hs⟩

end Pukeko
